import Mathlib

/-!
Shallow embedding of the cache subsystem (`core/cache/cache.py`) and the
progress-reporting executor (`core/multithreading/progress_executor.py`) of
cutleast-core-lib, together with proofs about the claims on them.

Python values stored via pickle are modelled by an opaque inductive `PyVal`;
the filesystem is a finite association list from paths (lists of components)
to files; directories are implicit (a directory exists iff some file lives
under it, which is all the code observes through `is_dir`/`os.listdir`).
-/

deriving instance DecidableEq for Except

namespace CCL

/-- An opaque model of picklable Python values. `PyVal.none` models Python's
`None`; other values are modelled by tagged integers, enough to distinguish
any two distinct cached payloads. -/
inductive PyVal where
  | none
  | int (n : Int)
  deriving DecidableEq, Repr

/-- Version strings as understood by `semantic_version.Version`: either the
distinguished non-version string `"development"` or a parseable semantic
version `major.minor.patch`. (`Version(s)` raises `ValueError` on
`"development"` and on non-version text.) -/
inductive Vstr where
  | dev
  | sem (major minor patch : Nat)
  deriving DecidableEq, Repr

/-- Strict semantic-version comparison on parsed `major.minor.patch` triples,
as `semantic_version.Version.__lt__` behaves on plain releases. -/
def semLt : Nat × Nat × Nat → Nat × Nat × Nat → Bool
  | (a, b, c), (x, y, z) =>
    a < x || (a = x && (b < y || (b = y && c < z)))

/-- Contents of a file in the cache tree: a pickled payload (written by
`save_to_cache`) or plain version text (the `version` marker file). -/
inductive FileData where
  | pickle (v : PyVal)
  | text (v : Vstr)
  deriving DecidableEq, Repr

/-- A file on disk: its content plus its modification timestamp
(`stat().st_mtime`, modelled as a natural number of seconds). -/
structure File where
  data : FileData
  mtime : Nat
  deriving DecidableEq, Repr

/-- A filesystem path, as its list of components. -/
abbrev FPath := List String

/-- The filesystem: a finite map from paths to files, as an association
list (first match wins). -/
abbrev FS := List (FPath × File)

/-- Look up a file by path. -/
def FS.lookup : FS → FPath → Option File
  | [], _ => Option.none
  | (q, f) :: rest, p => if q = p then some f else FS.lookup rest p

/-- `Path.is_file`. -/
def FS.isFile (fs : FS) (p : FPath) : Bool :=
  (FS.lookup fs p).isSome

/-- Write (create or overwrite) the file at `p`; parent directories are
implicit (`mkdir(parents=True, exist_ok=True)` is a no-op in this model). -/
def FS.insert (fs : FS) (p : FPath) (f : File) : FS :=
  (p, f) :: fs.filter (fun e => e.1 ≠ p)

/-- `Path.unlink`. -/
def FS.erase (fs : FS) (p : FPath) : FS :=
  fs.filter (fun e => e.1 ≠ p)

/-- `shutil.rmtree(root, ignore_errors=True)`: removes every file whose path
lies under `root` (errors, e.g. a missing root, are ignored). -/
def FS.rmtree (fs : FS) (root : FPath) : FS :=
  fs.filter (fun e => ! root.isPrefixOf e.1)

/-- The files lying under `root` (used to state "the cache root is gone"). -/
def FS.filesUnder (fs : FS) (root : FPath) : FS :=
  fs.filter (fun e => root.isPrefixOf e.1)

/-- `self.path.is_dir() and os.listdir(self.path)`: some file lies strictly
below `root` (directories exist only by containing files in this model). -/
def FS.dirNonEmpty (fs : FS) (root : FPath) : Bool :=
  fs.any (fun e => root.isPrefixOf e.1 && e.1 ≠ root)

/-- Modelled from the spec: the `FunctionCache` memo table
(`core/cache/function_cache.py` is absent from the sources; only its use in
`cache.py` survives). Spec: "an in-process (non-persistent) mapping from a
function-call fingerprint (derived from function identity and arguments) to
its return value, used to avoid re-reading the same pickle file twice in one
run". Applied to the classmethod `Cache.__read_file`, the fingerprint is
determined by the resolved file path, so the memo is a map from paths to the
value deserialized on the first read. -/
abbrev Memo := List (FPath × PyVal)

/-- Look up a path in the in-process read memo. -/
def Memo.lookup : Memo → FPath → Option PyVal
  | [], _ => Option.none
  | (q, v) :: rest, p => if q = p then some v else Memo.lookup rest p

/-- Exceptions the embedded operations can raise. -/
inductive Err where
  | fileNotFound
  | unpickling
  | valueError
  | runtimeError
  deriving DecidableEq, Repr

/-- The process-wide state the cache code touches: the `Singleton` slot for
the `Cache` instance (holding its root path when present), the filesystem,
and the in-process `FunctionCache` memo for `Cache.__read_file`. -/
structure CacheSt where
  inst : Option FPath
  fs : FS
  memo : Memo
  deriving DecidableEq, Repr

/-- `Cache.__read_file`, a classmethod decorated with `FunctionCache.cache`:
on a memo hit the stored value is returned without touching the file; on a
miss the file is opened and unpickled (raising `FileNotFoundError` when it
does not exist and an unpickling error on non-pickle content), and the
result is memoized. The memoization layer is modelled from the spec, see
`Memo`. -/
def readFile (st : CacheSt) (p : FPath) : Except Err PyVal × CacheSt :=
  match Memo.lookup st.memo p with
  | some v => (.ok v, st)
  | Option.none =>
    match FS.lookup st.fs p with
    | some ⟨.pickle v, _⟩ => (.ok v, { st with memo := (p, v) :: st.memo })
    | some ⟨.text _, _⟩ => (.error .unpickling, st)
    | Option.none => (.error .fileNotFound, st)

/-- The path a cache key resolves to: `cache.path / key` when the singleton
instance exists, the key itself otherwise (`Cache.get_from_cache`, first
statement). -/
def resolve (st : CacheSt) (key : FPath) : FPath :=
  match st.inst with
  | some root => root ++ key
  | Option.none => key

/-- `Cache.get_from_cache(cache_file_path, max_age, default)`. The `default`
argument is `Option.none` for the `_Undefined` sentinel (no default) and
`some d` when a default `d` is supplied (`some PyVal.none` models
`default=None`). `now` is `time.time()`. -/
def get_from_cache (st : CacheSt) (key : FPath) (maxAge : Option Nat)
    (default : Option PyVal) (now : Nat) : Except Err PyVal × CacheSt :=
  let p : FPath := resolve st key
  -- Delete existing cache file that got too old
  let st1 : CacheSt :=
    match FS.lookup st.fs p, maxAge with
    | some f, some a =>
      if now - f.mtime > a then { st with fs := FS.erase st.fs p } else st
    | _, _ => st
  if ¬ FS.isFile st1.fs p ∧ default.isSome then
    (.ok (default.getD .none), st1)
  else
    readFile st1 p

/-- `Cache.save_to_cache(cache_file_path, data)`: does nothing when no cache
instance exists; otherwise pickles `data` to `cache.path / key` (creating
parent directories, implicit here). `now` becomes the file's mtime. -/
def save_to_cache (st : CacheSt) (key : FPath) (v : PyVal) (now : Nat) :
    CacheSt :=
  match st.inst with
  | Option.none => st
  | some root => { st with fs := FS.insert st.fs (root ++ key) ⟨.pickle v, now⟩ }

/-- `Cache.clear_caches`: `shutil.rmtree(self.path, ignore_errors=True)`.
`root` is `self.path` of the instance the method is called on. -/
def clear_caches (st : CacheSt) (root : FPath) : CacheSt :=
  { st with fs := FS.rmtree st.fs root }

/-- `semantic_version.Version(s)` on the text of the marker file: parses a
semantic version, raises `ValueError` on `"development"`; reading pickle
bytes as text yields no parseable version either. -/
def parseData : FileData → Except Err (Nat × Nat × Nat)
  | .text (.sem a b c) => .ok (a, b, c)
  | .text .dev => .error .valueError
  | .pickle _ => .error .valueError

/-- `Cache.__init__(cache_path, app_version)`: the `Singleton` super-init
raises `RuntimeError` when an instance already exists (before any filesystem
access); otherwise the instance slot is taken, the `version` marker is
consulted, caches are cleared when the marker holds a version older than a
non-`"development"` `app_version` or when the marker is missing while the
cache directory is non-empty, and finally the marker is (re)written with
`app_version`. -/
def cacheInit (st0 : CacheSt) (root : FPath) (appv : Vstr) (now : Nat) :
    Except Err Unit × CacheSt :=
  if st0.inst.isSome then (.error .runtimeError, st0)
  else
    let st : CacheSt := { st0 with inst := some root }
    let marker : FPath := root ++ ["version"]
    let finish : CacheSt → Except Err Unit × CacheSt := fun s =>
      (.ok (), { s with fs := FS.insert s.fs marker ⟨.text appv, now⟩ })
    match FS.lookup st.fs marker with
    | some f =>
      if appv = .dev then finish st
      else
        match parseData f.data, appv with
        | .ok mv, .sem x y z =>
          if semLt mv (x, y, z) then finish (clear_caches st root) else finish st
        | .error e, _ => (.error e, st)
        | .ok _, .dev => finish st
    | Option.none =>
      if FS.dirNonEmpty st.fs root then finish (clear_caches st root)
      else finish st

/-- The cache file path `Cache.persistent_cache(...)`'s `wrapper` computes:
the subfolder (default `"function_cache"`) joined with the identifier plus
`".cache"`. The identifier is `id_generator(*args, **kwargs)` when supplied,
else `FunctionCache.get_func_identifier(func, (args, kwargs))` (absent from
the sources); both are abstracted as `idGen`. -/
def wrapperKey {α : Type} (cacheSubfolder : Option FPath) (idGen : α → String)
    (a : α) : FPath :=
  (cacheSubfolder.getD ["function_cache"]) ++ [idGen a ++ ".cache"]

/-- The body of `Cache.persistent_cache(...)`'s `wrapper`: computes the cache
file path (see `wrapperKey`), looks it up with `default=None`, and on a
`None` result invokes `f` and stores the result. Returns the result, the new
state, and whether the body of `f` ran. -/
def wrapperCall {α : Type} (cacheSubfolder : Option FPath) (idGen : α → String)
    (maxAge : Option Nat) (f : α → PyVal) (st : CacheSt) (a : α) (now : Nat) :
    Except Err PyVal × CacheSt × Bool :=
  let key : FPath := wrapperKey cacheSubfolder idGen a
  match get_from_cache st key maxAge (some .none) now with
  | (.error e, st1) => (.error e, st1, false)
  | (.ok r, st1) =>
    if r = .none then
      let r2 := f a
      (.ok r2, save_to_cache st1 key r2 now, true)
    else
      (.ok r, st1, false)

/-! ## Progress executor (`core/multithreading/progress_executor.py`) -/

/-- `ProgressUpdate` (`core/multithreading/progress.py`): a frozen payload of
three optional fields; `none` means "leave unchanged". -/
structure ProgressUpdate where
  status_text : Option String
  value : Option Nat
  maximum : Option Nat
  deriving DecidableEq, Repr

/-- The lock-protected mutable state of a `ProgressExecutor`: the completed-
and total-task counters and the thread-name → worker-slot map. -/
structure ExecState where
  completed : Nat
  total : Nat
  workerIds : List (String × Nat)
  deriving DecidableEq, Repr

/-- Fresh executor state (`__init__`). -/
def ExecState.init : ExecState := ⟨0, 0, []⟩

/-- `self.__worker_ids.setdefault(thread_name, len(self.__worker_ids) + 1)`
under the lock: returns the (possibly extended) state and the worker id. -/
def assignWorker (s : ExecState) (thread : String) : ExecState × Nat :=
  match s.workerIds.lookup thread with
  | some wid => (s, wid)
  | Option.none =>
    let wid := s.workerIds.length + 1
    ({ s with workerIds := s.workerIds ++ [(thread, wid)] }, wid)

/-- The bookkeeping `ProgressExecutor.submit` performs before dispatch:
`with self.__lock: self.__total_tasks += 1`. -/
def submitTask (s : ExecState) : ExecState :=
  { s with total := s.total + 1 }

/-- One execution of `worker_fn` on the thread named `thread`, with the
wrapped call's outcome abstracted as `outcome` (`.ok r` when `fn` returns
`r`, `.error e` when it raises `e`): the worker slot is assigned, and in the
`finally` block the completed counter is incremented and the aggregate
main-progress update is emitted; the outcome itself is passed through to the
`Future` unchanged. Returns (outcome delivered to the future, new state,
emitted main-progress update). -/
def runWorker {E T : Type} (s : ExecState) (thread : String)
    (mainText : String) (outcome : Except E T) :
    Except E T × ExecState × ProgressUpdate :=
  let s1 := (assignWorker s thread).1
  let s2 := { s1 with completed := s1.completed + 1 }
  (outcome, s2,
    ⟨some (mainText ++ " (" ++ toString s2.completed ++ " / " ++
        toString s2.total ++ ")"),
      some s2.completed, some s2.total⟩)

/-- Events observable at the executor's lock: a task being counted at
submission (`__total_tasks += 1` in `submit`) and a task being counted at
completion (`__completed_tasks += 1` in `worker_fn`'s `finally`). The lock
serializes these increments, so any concurrent execution is some
interleaving, i.e. a list of these events. `i` identifies the task. -/
inductive ExecEv where
  | submit (i : Nat)
  | complete (i : Nat)
  deriving DecidableEq, Repr

/-- Whether an event is a submission. -/
def ExecEv.isSubmit : ExecEv → Bool
  | .submit _ => true
  | .complete _ => false

/-- Position of the first occurrence of `e` in a trace. -/
def idxIn (t : List ExecEv) (e : ExecEv) : Nat :=
  t.findIdx (fun x => x = e)

/-- Effect of one lock-protected event on the counters. -/
def execStep (s : ExecState) : ExecEv → ExecState
  | .submit _ => { s with total := s.total + 1 }
  | .complete _ => { s with completed := s.completed + 1 }

/-- Run an interleaving of lock-protected events. -/
def runTrace (s : ExecState) (t : List ExecEv) : ExecState :=
  t.foldl execStep s

/-- The canonical event multiset of a run that submits tasks `0..N-1` and
waits for all of them: one submission and one completion per task. An
interleaving of such a run is any permutation of it in which each task's
submission precedes its completion. -/
def fullRun (N : Nat) : List ExecEv :=
  (List.range N).map ExecEv.submit ++ (List.range N).map ExecEv.complete

/-! ## Helper lemmas -/

theorem FS.lookup_insert_self (fs : FS) (p : FPath) (f : File) :
    FS.lookup (FS.insert fs p f) p = some f := by
  simp [FS.insert, FS.lookup]

theorem FS.lookup_filter_of_pred {fs : FS} {p : FPath} {g : FPath × File → Bool}
    (h : ∀ f : File, g (p, f) = true) :
    FS.lookup (fs.filter g) p = FS.lookup fs p := by
  induction fs with
  | nil => rfl
  | cons e rest ih =>
    by_cases he : e.1 = p
    · have : g e = true := by
        obtain ⟨q, f⟩ := e
        simp only at he
        subst he
        exact h f
      simp [List.filter, this, FS.lookup, he, ih]
    · by_cases hg : g e = true
      · simp [List.filter, hg, FS.lookup, he, ih]
      · simp only [Bool.not_eq_true] at hg
        simp [List.filter, hg, FS.lookup, he, ih]

theorem FS.lookup_insert_ne (fs : FS) (p q : FPath) (f : File) (h : q ≠ p) :
    FS.lookup (FS.insert fs p f) q = FS.lookup fs q := by
  have hpq : ¬ (p = q) := fun hc => h hc.symm
  simp only [FS.insert, FS.lookup, if_neg hpq]
  exact FS.lookup_filter_of_pred (fun _ => by simp [h])

theorem FS.lookup_erase_of_ne (fs : FS) (p q : FPath) (h : q ≠ p) :
    FS.lookup (FS.erase fs p) q = FS.lookup fs q := by
  exact FS.lookup_filter_of_pred (fun _ => by simp [h])

theorem FS.lookup_rmtree_of_not_under (fs : FS) (root q : FPath)
    (h : ¬ root.isPrefixOf q = true) :
    FS.lookup (FS.rmtree fs root) q = FS.lookup fs q := by
  exact FS.lookup_filter_of_pred (fun _ => by simp [h])

theorem FS.lookup_rmtree_of_under (fs : FS) (root q : FPath)
    (h : root.isPrefixOf q = true) :
    FS.lookup (FS.rmtree fs root) q = Option.none := by
  induction fs with
  | nil => rfl
  | cons e rest ih =>
    obtain ⟨p1, f1⟩ := e
    cases hg : root.isPrefixOf p1 with
    | true =>
      simpa [FS.rmtree, List.filter_cons, hg] using ih
    | false =>
      have hne : p1 ≠ q := by
        intro hc
        rw [hc, h] at hg
        cases hg
      simp only [FS.rmtree, List.filter_cons, hg] at ih ⊢
      simp only [Bool.not_false, if_pos rfl, FS.lookup, if_neg hne]
      exact ih

theorem FS.lookup_erase_self (fs : FS) (p : FPath) :
    FS.lookup (FS.erase fs p) p = Option.none := by
  induction fs with
  | nil => rfl
  | cons e rest ih =>
    obtain ⟨p1, f1⟩ := e
    by_cases he : p1 = p
    · simpa [FS.erase, List.filter_cons, he] using ih
    · simp only [FS.erase, List.filter_cons] at ih ⊢
      rw [if_pos (by simp [he])]
      simp only [FS.lookup, if_neg he]
      exact ih

theorem save_to_cache_memo (st : CacheSt) (key : FPath) (v : PyVal) (now : Nat) :
    (save_to_cache st key v now).memo = st.memo := by
  cases h : st.inst <;> simp [save_to_cache, h]

theorem save_to_cache_inst (st : CacheSt) (key : FPath) (v : PyVal) (now : Nat) :
    (save_to_cache st key v now).inst = st.inst := by
  cases h : st.inst <;> simp [save_to_cache, h]

/-- On a miss (no file at the resolved path) with a default supplied,
`get_from_cache` returns the default and leaves the state unchanged. -/
theorem get_from_cache_miss_default (st : CacheSt) (key : FPath)
    (maxAge : Option Nat) (d : PyVal) (now : Nat)
    (hfs : FS.lookup st.fs (resolve st key) = Option.none) :
    get_from_cache st key maxAge (some d) now = (.ok d, st) := by
  simp [get_from_cache, FS.isFile, hfs]

/-- On a miss with no default and no memoized value, `get_from_cache` raises
`FileNotFoundError`. -/
theorem get_from_cache_miss_raise (st : CacheSt) (key : FPath)
    (maxAge : Option Nat) (now : Nat)
    (hfs : FS.lookup st.fs (resolve st key) = Option.none)
    (hmemo : Memo.lookup st.memo (resolve st key) = Option.none) :
    get_from_cache st key maxAge Option.none now = (.error .fileNotFound, st) := by
  simp [get_from_cache, FS.isFile, hfs, readFile, hmemo]

/-- When the resolved path is memoized and no file exists there,
`get_from_cache` with no default serves the memoized value. -/
theorem get_from_cache_memo_stale (st : CacheSt) (key : FPath)
    (maxAge : Option Nat) (now : Nat) (v : PyVal)
    (hfs : FS.lookup st.fs (resolve st key) = Option.none)
    (hmemo : Memo.lookup st.memo (resolve st key) = some v) :
    get_from_cache st key maxAge Option.none now = (.ok v, st) := by
  simp [get_from_cache, FS.isFile, hfs, readFile, hmemo]

/-- On a hit (a fresh-enough pickle file at the resolved path, not yet
memoized), `get_from_cache` reads and memoizes the pickled value. -/
theorem get_from_cache_hit (st : CacheSt) (key : FPath)
    (maxAge : Option Nat) (default : Option PyVal) (now : Nat) (v : PyVal)
    (mt : Nat)
    (hfs : FS.lookup st.fs (resolve st key) = some ⟨.pickle v, mt⟩)
    (hmemo : Memo.lookup st.memo (resolve st key) = Option.none)
    (hage : ∀ g, maxAge = some g → now - mt ≤ g) :
    get_from_cache st key maxAge default now =
      (.ok v, { st with memo := (resolve st key, v) :: st.memo }) := by
  cases maxAge with
  | none => simp [get_from_cache, FS.isFile, hfs, readFile, hmemo]
  | some g =>
    have hle : ¬ now - mt > g := by
      have := hage g rfl
      omega
    simp [get_from_cache, FS.isFile, hfs, readFile, hmemo, hle]

theorem assignWorker_completed (s : ExecState) (thread : String) :
    (assignWorker s thread).1.completed = s.completed := by
  cases h : s.workerIds.lookup thread <;> simp [assignWorker, h]

theorem assignWorker_total (s : ExecState) (thread : String) :
    (assignWorker s thread).1.total = s.total := by
  cases h : s.workerIds.lookup thread <;> simp [assignWorker, h]

theorem runTrace_total (t : List ExecEv) (s : ExecState) :
    (runTrace s t).total = s.total + t.countP ExecEv.isSubmit := by
  induction t generalizing s with
  | nil => simp [runTrace]
  | cons e rest ih =>
    have hstep : runTrace s (e :: rest) = runTrace (execStep s e) rest := rfl
    rw [hstep, ih]
    cases e <;> simp [execStep, List.countP_cons, ExecEv.isSubmit] <;> omega

theorem runTrace_completed (t : List ExecEv) (s : ExecState) :
    (runTrace s t).completed =
      s.completed + t.countP (fun e => ! ExecEv.isSubmit e) := by
  induction t generalizing s with
  | nil => simp [runTrace]
  | cons e rest ih =>
    have hstep : runTrace s (e :: rest) = runTrace (execStep s e) rest := rfl
    rw [hstep, ih]
    cases e <;> simp [execStep, List.countP_cons, ExecEv.isSubmit] <;> omega

theorem countP_fullRun_submit (N : Nat) :
    (fullRun N).countP ExecEv.isSubmit = N := by
  rw [fullRun, List.countP_append]
  have h1 : ((List.range N).map ExecEv.submit).countP ExecEv.isSubmit =
      ((List.range N).map ExecEv.submit).length :=
    List.countP_eq_length.2 (by
      intro a ha
      obtain ⟨i, _, rfl⟩ := List.mem_map.1 ha
      rfl)
  have h2 : ((List.range N).map ExecEv.complete).countP ExecEv.isSubmit = 0 :=
    List.countP_eq_zero.2 (by
      intro a ha
      obtain ⟨i, _, rfl⟩ := List.mem_map.1 ha
      simp [ExecEv.isSubmit])
  simp [h1, h2]

theorem countP_fullRun_complete (N : Nat) :
    (fullRun N).countP (fun e => ! ExecEv.isSubmit e) = N := by
  rw [fullRun, List.countP_append]
  have h1 : ((List.range N).map ExecEv.submit).countP
      (fun e => ! ExecEv.isSubmit e) = 0 :=
    List.countP_eq_zero.2 (by
      intro a ha
      obtain ⟨i, _, rfl⟩ := List.mem_map.1 ha
      simp [ExecEv.isSubmit])
  have h2 : ((List.range N).map ExecEv.complete).countP
      (fun e => ! ExecEv.isSubmit e) =
      ((List.range N).map ExecEv.complete).length :=
    List.countP_eq_length.2 (by
      intro a ha
      obtain ⟨i, _, rfl⟩ := List.mem_map.1 ha
      rfl)
  simp [h1, h2]

/-- C5: when the wrapped callable raises, `worker_fn`'s `finally` block still
increments the completed counter (the task counts as completed, and the
emitted aggregate update carries the incremented value), and the exception
reaches the awaiter of the `Future` unchanged. -/
theorem C5_exception_counted_and_reraised {E T : Type} (s : ExecState)
    (thread mainText : String) (e : E) :
    (runWorker s thread mainText (Except.error e : Except E T)).1 =
        Except.error e ∧
      (runWorker s thread mainText (Except.error e : Except E T)).2.1.completed =
        s.completed + 1 ∧
      (runWorker s thread mainText (Except.error e : Except E T)).2.2.value =
        some (s.completed + 1) ∧
      (runWorker s thread mainText (Except.error e : Except E T)).2.2.maximum =
        some s.total := by
  refine ⟨rfl, ?_, ?_, ?_⟩ <;>
    simp [runWorker, assignWorker_completed, assignWorker_total]

/-- C6: for every `N` and every interleaving of the lock-protected counter
events of a run that submits `N` tasks and waits for all of them (any
permutation of one submission and one completion per task, submissions
before their completions), the final state has
`completed = total = N`. -/
theorem C6_final_counts (N : Nat) (t : List ExecEv)
    (hperm : t.Perm (fullRun N))
    (horder : ∀ i < N, idxIn t (ExecEv.submit i) < idxIn t (ExecEv.complete i)) :
    (runTrace ExecState.init t).completed = N ∧
      (runTrace ExecState.init t).total = N := by
  constructor
  · rw [runTrace_completed, hperm.countP_eq, countP_fullRun_complete]
    simp [ExecState.init]
  · rw [runTrace_total, hperm.countP_eq, countP_fullRun_submit]
    simp [ExecState.init]

/-- Witness for C6 at `N = 2` with an out-of-order interleaving. -/
theorem C6_final_counts_witness :
    ([ExecEv.submit 0, ExecEv.submit 1, ExecEv.complete 1,
        ExecEv.complete 0].Perm (fullRun 2) ∧
      (∀ i < 2, idxIn [ExecEv.submit 0, ExecEv.submit 1, ExecEv.complete 1,
        ExecEv.complete 0] (ExecEv.submit i) <
        idxIn [ExecEv.submit 0, ExecEv.submit 1, ExecEv.complete 1,
          ExecEv.complete 0] (ExecEv.complete i))) ∧
      (runTrace ExecState.init [ExecEv.submit 0, ExecEv.submit 1,
        ExecEv.complete 1, ExecEv.complete 0]).completed = 2 ∧
      (runTrace ExecState.init [ExecEv.submit 0, ExecEv.submit 1,
        ExecEv.complete 1, ExecEv.complete 0]).total = 2 :=
  ⟨⟨by decide, by decide⟩,
    C6_final_counts 2 _ (by decide) (by decide)⟩

/-! ## Claims about the persistent cache -/

/-- C1, counterexample: for the wrapped function returning `None` (on a fresh
cache with an instance present), both the first and the second call with
identical arguments execute the body — refuting "calling the wrapped
function twice with identical arguments executes the body of f exactly
once" for every function. -/
theorem C1_counterexample :
    (let st0 : CacheSt := ⟨some ["cache"], [], []⟩
     let c1 := wrapperCall Option.none (fun _ => "k") Option.none
       (fun (_ : Unit) => PyVal.none) st0 () 0
     let c2 := wrapperCall Option.none (fun _ => "k") Option.none
       (fun (_ : Unit) => PyVal.none) c1.2.1 () 0
     c1.2.2 = true ∧ c2.2.2 = true) := by
  decide

/-- C1 (amended): for every function `f` wrapped by `Cache.persistent_cache`
and every argument on which `f` does not return `None`, starting from a
state with a cache instance whose cache file for that call neither exists
nor is memoized, and with the second call within any configured `max_age` of
the first: the first call invokes `f` and stores its result, and the second
call returns that stored result without invoking `f`. -/
theorem C1_wrapped_invokes_once {α : Type} (sf : Option FPath)
    (idGen : α → String) (maxAge : Option Nat) (f : α → PyVal) (st : CacheSt)
    (a : α) (now1 now2 : Nat) (root : FPath)
    (hinst : st.inst = some root)
    (hfs : FS.lookup st.fs (root ++ wrapperKey sf idGen a) = Option.none)
    (hmemo : Memo.lookup st.memo (root ++ wrapperKey sf idGen a) = Option.none)
    (hres : f a ≠ PyVal.none)
    (hage : ∀ g, maxAge = some g → now2 - now1 ≤ g) :
    (wrapperCall sf idGen maxAge f st a now1).1 = .ok (f a) ∧
      (wrapperCall sf idGen maxAge f st a now1).2.2 = true ∧
      (wrapperCall sf idGen maxAge f
        (wrapperCall sf idGen maxAge f st a now1).2.1 a now2).1 = .ok (f a) ∧
      (wrapperCall sf idGen maxAge f
        (wrapperCall sf idGen maxAge f st a now1).2.1 a now2).2.2 = false := by
  have hres1 : resolve st (wrapperKey sf idGen a) =
      root ++ wrapperKey sf idGen a := by
    simp [resolve, hinst]
  have hg1 := get_from_cache_miss_default st (wrapperKey sf idGen a) maxAge
    .none now1 (by rw [hres1]; exact hfs)
  have hw1 : wrapperCall sf idGen maxAge f st a now1 =
      (.ok (f a), save_to_cache st (wrapperKey sf idGen a) (f a) now1, true) := by
    simp [wrapperCall, hg1]
  have hst2inst : (save_to_cache st (wrapperKey sf idGen a) (f a) now1).inst =
      some root := by
    rw [save_to_cache_inst]; exact hinst
  have hres2 : resolve (save_to_cache st (wrapperKey sf idGen a) (f a) now1)
      (wrapperKey sf idGen a) = root ++ wrapperKey sf idGen a := by
    simp [resolve, hst2inst]
  have hfs2 : FS.lookup (save_to_cache st (wrapperKey sf idGen a) (f a) now1).fs
      (resolve (save_to_cache st (wrapperKey sf idGen a) (f a) now1)
        (wrapperKey sf idGen a)) = some ⟨.pickle (f a), now1⟩ := by
    rw [hres2]
    simp only [save_to_cache, hinst]
    exact FS.lookup_insert_self _ _ _
  have hmemo2 : Memo.lookup
      (save_to_cache st (wrapperKey sf idGen a) (f a) now1).memo
      (resolve (save_to_cache st (wrapperKey sf idGen a) (f a) now1)
        (wrapperKey sf idGen a)) = Option.none := by
    rw [hres2, save_to_cache_memo]
    exact hmemo
  have hg2 := get_from_cache_hit
    (save_to_cache st (wrapperKey sf idGen a) (f a) now1)
    (wrapperKey sf idGen a) maxAge (some .none) now2 (f a) now1 hfs2 hmemo2 hage
  have hw2 : wrapperCall sf idGen maxAge f
      (save_to_cache st (wrapperKey sf idGen a) (f a) now1) a now2 =
      (.ok (f a),
        { save_to_cache st (wrapperKey sf idGen a) (f a) now1 with
          memo := (resolve (save_to_cache st (wrapperKey sf idGen a) (f a) now1)
              (wrapperKey sf idGen a), f a) ::
            (save_to_cache st (wrapperKey sf idGen a) (f a) now1).memo },
        false) := by
    simp [wrapperCall, hg2, hres]
  rw [hw1]
  exact ⟨rfl, rfl, by rw [hw2], by rw [hw2]⟩

/-- Witness for the amended C1 on a concrete fresh cache. -/
theorem C1_wrapped_invokes_once_witness :
    (wrapperCall Option.none (fun _ => "k") Option.none
        (fun (_ : Unit) => PyVal.int 3) ⟨some ["c"], [], []⟩ () 0).1 =
        .ok (PyVal.int 3) ∧
      (wrapperCall Option.none (fun _ => "k") Option.none
        (fun (_ : Unit) => PyVal.int 3) ⟨some ["c"], [], []⟩ () 0).2.2 = true ∧
      (wrapperCall Option.none (fun _ => "k") Option.none
        (fun (_ : Unit) => PyVal.int 3)
        (wrapperCall Option.none (fun _ => "k") Option.none
          (fun (_ : Unit) => PyVal.int 3) ⟨some ["c"], [], []⟩ () 0).2.1 ()
        0).1 = .ok (PyVal.int 3) ∧
      (wrapperCall Option.none (fun _ => "k") Option.none
        (fun (_ : Unit) => PyVal.int 3)
        (wrapperCall Option.none (fun _ => "k") Option.none
          (fun (_ : Unit) => PyVal.int 3) ⟨some ["c"], [], []⟩ () 0).2.1 ()
        0).2.2 = false :=
  C1_wrapped_invokes_once Option.none (fun _ => "k") Option.none
    (fun (_ : Unit) => PyVal.int 3) ⟨some ["c"], [], []⟩ () 0 0 ["c"] rfl
    (by decide) (by decide) (by decide) (by intro g hg; cases hg)

/-- A cache-file slot consistent with a `None`-returning call: empty or
holding a pickled `None`. -/
def fileNoneOk : Option File → Bool
  | Option.none => true
  | some ⟨.pickle .none, _⟩ => true
  | some _ => false

/-- A read-memo slot consistent with a `None`-returning call: empty or
holding `None`. -/
def memoNoneOk : Option PyVal → Bool
  | Option.none => true
  | some .none => true
  | some _ => false

/-- Under the `None` invariant, the wrapper's lookup (`default=None`) yields
`None` and preserves the invariant. -/
theorem get_none_inv (st : CacheSt) (key : FPath) (maxAge : Option Nat)
    (now : Nat)
    (hfile : fileNoneOk (FS.lookup st.fs (resolve st key)) = true)
    (hmemo : memoNoneOk (Memo.lookup st.memo (resolve st key)) = true) :
    (get_from_cache st key maxAge (some .none) now).1 = .ok .none ∧
      (get_from_cache st key maxAge (some .none) now).2.inst = st.inst ∧
      fileNoneOk (FS.lookup (get_from_cache st key maxAge (some .none) now).2.fs
        (resolve st key)) = true ∧
      memoNoneOk (Memo.lookup
        (get_from_cache st key maxAge (some .none) now).2.memo
        (resolve st key)) = true := by
  cases hf : FS.lookup st.fs (resolve st key) with
  | none =>
    have h := get_from_cache_miss_default st key maxAge .none now hf
    rw [h]
    exact ⟨rfl, rfl, by rw [hf]; rfl, hmemo⟩
  | some file =>
    obtain ⟨fd, mt⟩ := file
    have hfd : fd = FileData.pickle .none := by
      rw [hf] at hfile
      cases fd with
      | pickle v => cases v <;> simp_all [fileNoneOk]
      | text v => simp [fileNoneOk] at hfile
    subst hfd
    have hread : ∀ st1 : CacheSt, st1.memo = st.memo → st1.fs = st.fs →
        readFile st1 (resolve st key) =
          (.ok .none,
            if (Memo.lookup st.memo (resolve st key)).isSome then st1
            else { st1 with memo := (resolve st key, PyVal.none) :: st.memo }) := by
      intro st1 hm1 hf1
      cases hm : Memo.lookup st.memo (resolve st key) with
      | none => simp [readFile, hm1, hm, hf1, hf]
      | some v =>
        have hv : v = PyVal.none := by
          rw [hm] at hmemo
          cases v <;> simp_all [memoNoneOk]
        subst hv
        simp [readFile, hm1, hm]
    cases maxAge with
    | none =>
      have hg : get_from_cache st key Option.none (some .none) now =
          readFile st (resolve st key) := by
        simp [get_from_cache, hf, FS.isFile]
      rw [hg, hread st rfl rfl]
      by_cases hm : (Memo.lookup st.memo (resolve st key)).isSome = true
      · rw [if_pos hm]
        exact ⟨rfl, rfl, by rw [hf]; rfl, hmemo⟩
      · rw [if_neg hm]
        exact ⟨rfl, rfl, by rw [hf]; rfl, by simp [Memo.lookup, memoNoneOk]⟩
    | some g =>
      by_cases hgt : now - mt > g
      · have hg : get_from_cache st key (some g) (some .none) now =
            (.ok .none, { st with fs := FS.erase st.fs (resolve st key) }) := by
          simp [get_from_cache, hf, hgt, FS.isFile, FS.lookup_erase_self]
        rw [hg]
        exact ⟨rfl, rfl, by rw [FS.lookup_erase_self]; rfl, hmemo⟩
      · have hg : get_from_cache st key (some g) (some .none) now =
            readFile st (resolve st key) := by
          simp [get_from_cache, hf, hgt, FS.isFile]
        rw [hg, hread st rfl rfl]
        by_cases hm : (Memo.lookup st.memo (resolve st key)).isSome = true
        · rw [if_pos hm]
          exact ⟨rfl, rfl, by rw [hf]; rfl, hmemo⟩
        · rw [if_neg hm]
          exact ⟨rfl, rfl, by rw [hf]; rfl, by simp [Memo.lookup, memoNoneOk]⟩

/-- Saving `None` keeps the `None` invariant of the saved slot. -/
theorem save_none_inv (st : CacheSt) (key : FPath) (now : Nat)
    (hfile : fileNoneOk (FS.lookup st.fs (resolve st key)) = true)
    (hmemo : memoNoneOk (Memo.lookup st.memo (resolve st key)) = true) :
    (save_to_cache st key .none now).inst = st.inst ∧
      fileNoneOk (FS.lookup (save_to_cache st key .none now).fs
        (resolve st key)) = true ∧
      memoNoneOk (Memo.lookup (save_to_cache st key .none now).memo
        (resolve st key)) = true := by
  cases hi : st.inst with
  | none =>
    refine ⟨?_, ?_, ?_⟩
    · simp [save_to_cache, hi]
    · simpa [save_to_cache, hi] using hfile
    · simpa [save_to_cache, hi] using hmemo
  | some root =>
    refine ⟨by rw [save_to_cache_inst]; exact hi, ?_, ?_⟩
    · have hres : resolve st key = root ++ key := by simp [resolve, hi]
      simp only [save_to_cache, hi, hres]
      rw [FS.lookup_insert_self]
      rfl
    · rw [save_to_cache_memo]
      exact hmemo

/-- Resolution only depends on the instance slot. -/
theorem resolve_congr (st st2 : CacheSt) (key : FPath)
    (h : st2.inst = st.inst) : resolve st2 key = resolve st key := by
  cases hi : st.inst <;> simp [resolve, h, hi]

/-- Unfolding `wrapperCall` once the lookup's outcome is known. -/
theorem wrapperCall_eq_of_get {α : Type} (sf : Option FPath)
    (idGen : α → String) (maxAge : Option Nat) (f : α → PyVal) (st : CacheSt)
    (a : α) (now : Nat) (r : PyVal) (st1 : CacheSt)
    (h : get_from_cache st (wrapperKey sf idGen a) maxAge (some .none) now =
      (.ok r, st1)) :
    wrapperCall sf idGen maxAge f st a now =
      if r = .none then
        (.ok (f a), save_to_cache st1 (wrapperKey sf idGen a) (f a) now, true)
      else (.ok r, st1, false) := by
  simp only [wrapperCall]
  rw [h]

/-- C8: when the wrapped function returns `None` for the given arguments,
every call of the wrapped function invokes it: in any state whose cache-file
slot and read-memo slot for that call hold nothing or `None` (the only
states such calls produce), the wrapper's `default=None` lookup yields
`None`, the body runs (`invoked = true`), and the state keeps that shape, so
`None`-returning calls are never served from the cache. -/
theorem C8_none_never_cached {α : Type} (sf : Option FPath)
    (idGen : α → String) (maxAge : Option Nat) (f : α → PyVal) (st : CacheSt)
    (a : α) (now : Nat)
    (hnone : f a = PyVal.none)
    (hfile : fileNoneOk (FS.lookup st.fs
      (resolve st (wrapperKey sf idGen a))) = true)
    (hmemo : memoNoneOk (Memo.lookup st.memo
      (resolve st (wrapperKey sf idGen a))) = true) :
    (wrapperCall sf idGen maxAge f st a now).1 = .ok PyVal.none ∧
      (wrapperCall sf idGen maxAge f st a now).2.2 = true ∧
      (wrapperCall sf idGen maxAge f st a now).2.1.inst = st.inst ∧
      fileNoneOk (FS.lookup (wrapperCall sf idGen maxAge f st a now).2.1.fs
        (resolve st (wrapperKey sf idGen a))) = true ∧
      memoNoneOk (Memo.lookup (wrapperCall sf idGen maxAge f st a now).2.1.memo
        (resolve st (wrapperKey sf idGen a))) = true := by
  obtain ⟨hres, hinst1, hfile1, hmemo1⟩ :=
    get_none_inv st (wrapperKey sf idGen a) maxAge now hfile hmemo
  have hpair : get_from_cache st (wrapperKey sf idGen a) maxAge
      (some .none) now =
      (.ok PyVal.none,
        (get_from_cache st (wrapperKey sf idGen a) maxAge (some .none) now).2) := by
    rw [← hres]
  have hw : wrapperCall sf idGen maxAge f st a now =
      (.ok PyVal.none,
        save_to_cache
          (get_from_cache st (wrapperKey sf idGen a) maxAge (some .none) now).2
          (wrapperKey sf idGen a) .none now,
        true) := by
    rw [wrapperCall_eq_of_get sf idGen maxAge f st a now PyVal.none _ hpair]
    simp [hnone]
  have hres1 : resolve
      (get_from_cache st (wrapperKey sf idGen a) maxAge (some .none) now).2
      (wrapperKey sf idGen a) = resolve st (wrapperKey sf idGen a) :=
    resolve_congr st _ _ hinst1
  obtain ⟨hsinst, hsfile, hsmemo⟩ := save_none_inv
    (get_from_cache st (wrapperKey sf idGen a) maxAge (some .none) now).2
    (wrapperKey sf idGen a) now (by rw [hres1]; exact hfile1)
    (by rw [hres1]; exact hmemo1)
  rw [hres1] at hsfile hsmemo
  rw [hw]
  exact ⟨rfl, rfl, hsinst.trans hinst1, hsfile, hsmemo⟩

/-- Witness for C8 on a fresh cache with a `None`-returning function. -/
theorem C8_none_never_cached_witness :
    (wrapperCall Option.none (fun _ => "k") Option.none
        (fun (_ : Unit) => PyVal.none) ⟨some ["c"], [], []⟩ () 0).1 =
        .ok PyVal.none ∧
      (wrapperCall Option.none (fun _ => "k") Option.none
        (fun (_ : Unit) => PyVal.none) ⟨some ["c"], [], []⟩ () 0).2.2 = true ∧
      (wrapperCall Option.none (fun _ => "k") Option.none
        (fun (_ : Unit) => PyVal.none) ⟨some ["c"], [], []⟩ () 0).2.1.inst =
        (⟨some ["c"], [], []⟩ : CacheSt).inst ∧
      fileNoneOk (FS.lookup (wrapperCall Option.none (fun _ => "k") Option.none
        (fun (_ : Unit) => PyVal.none) ⟨some ["c"], [], []⟩ () 0).2.1.fs
        (resolve ⟨some ["c"], [], []⟩
          (wrapperKey Option.none (fun _ => "k") ()))) = true ∧
      memoNoneOk (Memo.lookup (wrapperCall Option.none (fun _ => "k")
        Option.none (fun (_ : Unit) => PyVal.none) ⟨some ["c"], [], []⟩ ()
        0).2.1.memo
        (resolve ⟨some ["c"], [], []⟩
          (wrapperKey Option.none (fun _ => "k") ()))) = true :=
  C8_none_never_cached Option.none (fun _ => "k") Option.none
    (fun (_ : Unit) => PyVal.none) ⟨some ["c"], [], []⟩ () 0 rfl (by decide)
    (by decide)

theorem filter_twice {α : Type} (g : α → Bool) (l : List α) :
    (l.filter g).filter g = l.filter g := by
  induction l with
  | nil => rfl
  | cons x xs ih =>
    cases hg : g x <;> simp [List.filter_cons, hg, ih]

theorem filter_sub_empty {α : Type} (pos g : α → Bool) (l : List α)
    (h : l.filter pos = []) : (l.filter g).filter pos = [] := by
  induction l with
  | nil => rfl
  | cons x xs ih =>
    cases hp : pos x with
    | true => simp [List.filter_cons, hp] at h
    | false =>
      rw [List.filter_cons, hp] at h
      simp only [Bool.false_eq_true, if_false] at h
      cases hg : g x <;> simp [List.filter_cons, hp, hg, ih h]

theorem isPrefixOf_append (l k : List String) : l.isPrefixOf (l ++ k) = true := by
  rw [List.isPrefixOf_iff_prefix]
  exact List.prefix_append l k

theorem FS.erase_insert (fs : FS) (p : FPath) (f : File) :
    FS.erase (FS.insert fs p f) p = FS.erase fs p := by
  simp [FS.erase, FS.insert, List.filter_cons, filter_twice]

theorem FS.filesUnder_rmtree (fs : FS) (root : FPath) :
    FS.filesUnder (FS.rmtree fs root) root = [] := by
  have h : FS.rmtree fs root =
      fs.filter (fun e => ! root.isPrefixOf e.1) := rfl
  rw [FS.filesUnder, h]
  induction fs with
  | nil => rfl
  | cons e rest ih =>
    cases hg : root.isPrefixOf e.1 <;>
      simp [List.filter_cons, hg, ih]

theorem FS.rmtree_idem (fs : FS) (root : FPath) :
    FS.rmtree (FS.rmtree fs root) root = FS.rmtree fs root := by
  simp only [FS.rmtree, List.filter_filter]
  exact List.filter_congr (fun e _ => by cases hg : root.isPrefixOf e.1 <;> simp [hg])

theorem FS.rmtree_insert_under (fs : FS) (root p : FPath) (m : File)
    (h : root.isPrefixOf p = true) :
    FS.rmtree (FS.insert fs p m) root = FS.rmtree fs root := by
  simp only [FS.insert, FS.rmtree, List.filter_cons, List.filter_filter, h,
    Bool.not_true, Bool.false_eq_true, if_false]
  refine List.filter_congr (fun e _ => ?_)
  cases hg : root.isPrefixOf e.1 with
  | true => simp [hg]
  | false =>
    have hne : ¬ (e.1 = p) := by
      intro hc
      rw [hc, h] at hg
      cases hg
    simp [hg, hne]

theorem filesUnder_insert_of_empty (A : FS) (root p : FPath) (m : File)
    (hp : root.isPrefixOf p = true) (hA : FS.filesUnder A root = []) :
    FS.filesUnder (FS.insert A p m) root = [(p, m)] := by
  have hA2 : A.filter (fun e => root.isPrefixOf e.1) = [] := hA
  have h2 := filter_sub_empty (fun e : FPath × File => root.isPrefixOf e.1)
    (fun e : FPath × File => decide (e.1 ≠ p)) A hA2
  simp only [FS.insert, FS.filesUnder, List.filter_cons, hp, if_pos, h2]

/-! ## Claims C2, C3, C7, C10 -/

/-- State reached by: create a cache instance, save 1 under key `k`, read it
back (memoizing it in-process), then save 2 under `k`. -/
def c2State : CacheSt :=
  save_to_cache
    (get_from_cache (save_to_cache ⟨some ["cache"], [], []⟩ ["k"] (.int 1) 0)
      ["k"] Option.none Option.none 0).2
    ["k"] (.int 2) 1

/-- C2, counterexample: from a reachable state with a cache instance (save 1
under key k, read it back — memoizing it — then save 2 under k), the next
`get_from_cache(k)` returns the stale memoized 1, not the 2 just saved —
refuting the unconditional save/get round-trip. -/
theorem C2_counterexample :
    (get_from_cache c2State ["k"] Option.none Option.none 1).1 =
        .ok (PyVal.int 1) ∧ PyVal.int 1 ≠ PyVal.int 2 := by
  decide

/-- C2 (amended): for every key K and value V, from any state with a cache
instance in which K's resolved path is not already held by the in-process
read memo, `save_to_cache(K, V)` followed by `get_from_cache(K)` returns V. -/
theorem C2_save_get_roundtrip (st : CacheSt) (root K : FPath) (v : PyVal)
    (t t2 : Nat)
    (hinst : st.inst = some root)
    (hmemo : Memo.lookup st.memo (root ++ K) = Option.none) :
    (get_from_cache (save_to_cache st K v t) K Option.none Option.none t2).1 =
      .ok v := by
  have hsinst : (save_to_cache st K v t).inst = some root := by
    rw [save_to_cache_inst]; exact hinst
  have hres : resolve (save_to_cache st K v t) K = root ++ K := by
    simp [resolve, hsinst]
  have hfs : FS.lookup (save_to_cache st K v t).fs
      (resolve (save_to_cache st K v t) K) = some ⟨.pickle v, t⟩ := by
    rw [hres]
    simp only [save_to_cache, hinst]
    exact FS.lookup_insert_self _ _ _
  have hm : Memo.lookup (save_to_cache st K v t).memo
      (resolve (save_to_cache st K v t) K) = Option.none := by
    rw [hres, save_to_cache_memo]; exact hmemo
  rw [get_from_cache_hit _ _ _ _ _ _ _ hfs hm (by intro g hg; cases hg)]

/-- Witness for the amended C2 on a fresh cache. -/
theorem C2_save_get_roundtrip_witness :
    (get_from_cache (save_to_cache ⟨some ["c"], [], []⟩ ["k"] (.int 2) 0)
      ["k"] Option.none Option.none 5).1 = .ok (PyVal.int 2) :=
  C2_save_get_roundtrip ⟨some ["c"], [], []⟩ ["c"] ["k"] (.int 2) 0 5 rfl
    (by decide)

/-- C3, counterexample: a key read before `clear_caches()` and looked up
afterwards without a default is served the stale memoized value instead of
a clean miss (no `FileNotFoundError`), even though the cache root is gone —
refuting "every get_from_cache(K) performed after clear_caches() is a clean
miss ... including keys that were read before the clear". -/
theorem C3_counterexample :
    FS.filesUnder (clear_caches
        (get_from_cache ⟨some ["c"], [(["c", "k"], ⟨.pickle (.int 5), 0⟩)], []⟩
          ["k"] Option.none Option.none 0).2 ["c"]).fs ["c"] = [] ∧
      (get_from_cache (clear_caches
        (get_from_cache ⟨some ["c"], [(["c", "k"], ⟨.pickle (.int 5), 0⟩)], []⟩
          ["k"] Option.none Option.none 0).2 ["c"]) ["k"] Option.none
        Option.none 0).1 = .ok (PyVal.int 5) := by
  decide

/-- C3 (amended): `clear_caches()` removes every file under the cache root
and is idempotent; afterwards a lookup with a default returns the default
for every key, and a lookup without a default raises `FileNotFoundError`
provided the key's resolved path was not read (memoized) before the clear —
a previously-read key is served its stale memoized value instead. -/
theorem C3_clear_then_miss (st : CacheSt) (root K : FPath) (d : PyVal)
    (now : Nat)
    (hinst : st.inst = some root)
    (hmemo : Memo.lookup st.memo (root ++ K) = Option.none) :
    FS.filesUnder (clear_caches st root).fs root = [] ∧
      clear_caches (clear_caches st root) root = clear_caches st root ∧
      (get_from_cache (clear_caches st root) K Option.none (some d) now).1 =
        .ok d ∧
      (get_from_cache (clear_caches st root) K Option.none Option.none now).1 =
        .error .fileNotFound := by
  have hres : resolve (clear_caches st root) K = root ++ K := by
    simp [resolve, clear_caches, hinst]
  have hlook : FS.lookup (clear_caches st root).fs
      (resolve (clear_caches st root) K) = Option.none := by
    rw [hres]
    exact FS.lookup_rmtree_of_under _ _ _ (isPrefixOf_append root K)
  refine ⟨FS.filesUnder_rmtree st.fs root, ?_, ?_, ?_⟩
  · simp [clear_caches, FS.rmtree_idem]
  · rw [get_from_cache_miss_default _ _ _ _ _ hlook]
  · rw [get_from_cache_miss_raise _ _ _ _ hlook (by rw [hres]; exact hmemo)]

/-- Witness for the amended C3. -/
theorem C3_clear_then_miss_witness :
    FS.filesUnder (clear_caches
        ⟨some ["c"], [(["c", "x"], ⟨.pickle (.int 1), 0⟩)], []⟩ ["c"]).fs
      ["c"] = [] ∧
      clear_caches (clear_caches
          ⟨some ["c"], [(["c", "x"], ⟨.pickle (.int 1), 0⟩)], []⟩ ["c"]) ["c"] =
        clear_caches ⟨some ["c"], [(["c", "x"], ⟨.pickle (.int 1), 0⟩)], []⟩
          ["c"] ∧
      (get_from_cache (clear_caches
          ⟨some ["c"], [(["c", "x"], ⟨.pickle (.int 1), 0⟩)], []⟩ ["c"]) ["k"]
        Option.none (some (.int 9)) 0).1 = .ok (PyVal.int 9) ∧
      (get_from_cache (clear_caches
          ⟨some ["c"], [(["c", "x"], ⟨.pickle (.int 1), 0⟩)], []⟩ ["c"]) ["k"]
        Option.none Option.none 0).1 = .error .fileNotFound :=
  C3_clear_then_miss ⟨some ["c"], [(["c", "x"], ⟨.pickle (.int 1), 0⟩)], []⟩
    ["c"] ["k"] (.int 9) 0 rfl (by decide)

/-- C7, counterexample: a key whose cache file was just deleted as expired
but which was read (memoized) earlier is served the stale memoized value
when no default is given, instead of failing with `FileNotFoundError` —
refuting the unconditional miss behaviour. -/
theorem C7_counterexample :
    (get_from_cache
        (get_from_cache (save_to_cache ⟨some ["c"], [], []⟩ ["k"] (.int 7) 0)
          ["k"] Option.none Option.none 0).2 ["k"] (some 1) Option.none
        10).1 = .ok (PyVal.int 7) ∧
      FS.lookup (get_from_cache
        (get_from_cache (save_to_cache ⟨some ["c"], [], []⟩ ["k"] (.int 7) 0)
          ["k"] Option.none Option.none 0).2 ["k"] (some 1) Option.none
        10).2.fs ["c", "k"] = Option.none := by
  decide

/-- C7 (amended): for every key whose cache file does not exist or is
deleted as expired on this lookup, `get_from_cache` returns the supplied
default when one is given; when no default is given it fails with
`FileNotFoundError` provided the key's resolved path is not held by the
in-process read memo (a memoized path is served the stale memoized value). -/
theorem C7_miss_behaviour (st : CacheSt) (K : FPath) (maxAge : Option Nat)
    (d : PyVal) (now : Nat)
    (hmemo : Memo.lookup st.memo (resolve st K) = Option.none)
    (hmiss : FS.lookup st.fs (resolve st K) = Option.none ∨
      ∃ f g, maxAge = some g ∧ FS.lookup st.fs (resolve st K) = some f ∧
        now - f.mtime > g) :
    (get_from_cache st K maxAge (some d) now).1 = .ok d ∧
      (get_from_cache st K maxAge Option.none now).1 =
        .error .fileNotFound := by
  rcases hmiss with hf | ⟨f, g, hg, hf, hgt⟩
  · exact ⟨by rw [get_from_cache_miss_default _ _ _ _ _ hf],
      by rw [get_from_cache_miss_raise _ _ _ _ hf hmemo]⟩
  · subst hg
    constructor
    · simp [get_from_cache, hf, hgt, FS.isFile, FS.lookup_erase_self]
    · simp [get_from_cache, hf, hgt, FS.isFile, FS.lookup_erase_self,
        readFile, hmemo]

/-- Witness for the amended C7 on an expired cache file. -/
theorem C7_miss_behaviour_witness :
    (get_from_cache ⟨some ["c"], [(["c", "k"], ⟨.pickle (.int 7), 0⟩)], []⟩
        ["k"] (some 1) (some (.int 9)) 10).1 = .ok (PyVal.int 9) ∧
      (get_from_cache ⟨some ["c"], [(["c", "k"], ⟨.pickle (.int 7), 0⟩)], []⟩
        ["k"] (some 1) Option.none 10).1 = .error .fileNotFound :=
  C7_miss_behaviour ⟨some ["c"], [(["c", "k"], ⟨.pickle (.int 7), 0⟩)], []⟩
    ["k"] (some 1) (.int 9) 10 (by decide)
    (Or.inr ⟨⟨.pickle (.int 7), 0⟩, 1, rfl, by decide, by decide⟩)

/-- C10: with no cache instance, `get_from_cache` does not return early: the
key is used as a filesystem path as-is (no cache-root prefix) and the lookup
reads an existing pickle file or raises `FileNotFoundError` as usual, while
`save_to_cache` in the same state returns without any effect. -/
theorem C10_no_instance (st : CacheSt) (K : FPath) (v v2 : PyVal)
    (now mt : Nat)
    (hinst : st.inst = Option.none)
    (hfsK : FS.lookup st.fs K = Option.none)
    (hmemo : Memo.lookup st.memo K = Option.none) :
    resolve st K = K ∧
      save_to_cache st K v now = st ∧
      (get_from_cache st K Option.none Option.none now).1 =
        .error .fileNotFound ∧
      (get_from_cache { st with fs := FS.insert st.fs K ⟨.pickle v2, mt⟩ } K
        Option.none Option.none now).1 = .ok v2 := by
  have hres : resolve st K = K := by simp [resolve, hinst]
  refine ⟨hres, ?_, ?_, ?_⟩
  · simp [save_to_cache, hinst]
  · rw [get_from_cache_miss_raise _ _ _ _ (by rw [hres]; exact hfsK)
      (by rw [hres]; exact hmemo)]
  · have hres2 : resolve { st with fs := FS.insert st.fs K ⟨.pickle v2, mt⟩ }
        K = K := by simp [resolve, hinst]
    have hfs2 : FS.lookup
        ({ st with fs := FS.insert st.fs K ⟨.pickle v2, mt⟩ } : CacheSt).fs
        (resolve { st with fs := FS.insert st.fs K ⟨.pickle v2, mt⟩ } K) =
        some ⟨.pickle v2, mt⟩ := by
      rw [hres2]
      exact FS.lookup_insert_self _ _ _
    have hm2 : Memo.lookup
        ({ st with fs := FS.insert st.fs K ⟨.pickle v2, mt⟩ } : CacheSt).memo
        (resolve { st with fs := FS.insert st.fs K ⟨.pickle v2, mt⟩ } K) =
        Option.none := by
      rw [hres2]; exact hmemo
    rw [get_from_cache_hit _ _ _ _ _ _ _ hfs2 hm2 (by intro g hg; cases hg)]

/-- Witness for C10 in the instance-less state. -/
theorem C10_no_instance_witness :
    resolve ⟨Option.none, [], []⟩ ["k"] = ["k"] ∧
      save_to_cache ⟨Option.none, [], []⟩ ["k"] (.int 1) 3 =
        (⟨Option.none, [], []⟩ : CacheSt) ∧
      (get_from_cache ⟨Option.none, [], []⟩ ["k"] Option.none Option.none
        3).1 = .error .fileNotFound ∧
      (get_from_cache { (⟨Option.none, [], []⟩ : CacheSt) with
          fs := FS.insert ([] : FS) ["k"] ⟨.pickle (.int 4), 0⟩ } ["k"]
        Option.none Option.none 3).1 = .ok (PyVal.int 4) :=
  C10_no_instance ⟨Option.none, [], []⟩ ["k"] (.int 1) (.int 4) 3 0 rfl
    (by decide) (by decide)

/-! ## Claims C4 and C9 (`Cache.__init__`) -/

/-- The spec's purge condition, written from the claim's words: "the running
application version is newer than the version stored in the marker file, or
the marker file is missing while the cache directory is non-empty". "Newer"
is semantic-version comparison, so it holds only when the marker parses and
the running version is a semantic version (not `"development"`). -/
def specPurge (fs : FS) (root : FPath) (appv : Vstr) : Bool :=
  (match FS.lookup fs (root ++ ["version"]), appv with
    | some f, .sem x y z =>
      match parseData f.data with
      | .ok mv => semLt mv (x, y, z)
      | .error _ => false
    | _, _ => false) ||
  ((FS.lookup fs (root ++ ["version"])).isNone && FS.dirNonEmpty fs root)

/-- C4: constructing the `Cache` singleton purges the entire cache before
use exactly when the spec's condition holds (running version newer than the
marker, or marker missing while the cache directory is non-empty): in the
purge case the only file left under the root is the freshly written marker
and nothing outside the root is touched; in every other case all files
except the marker survive unchanged. -/
theorem C4_version_purge (st : CacheSt) (root : FPath) (appv : Vstr)
    (now : Nat)
    (hinst : st.inst = Option.none) :
    if specPurge st.fs root appv = true then
      FS.filesUnder (cacheInit st root appv now).2.fs root =
          [(root ++ ["version"], ⟨.text appv, now⟩)] ∧
        FS.rmtree (cacheInit st root appv now).2.fs root =
          FS.rmtree st.fs root
    else
      FS.erase (cacheInit st root appv now).2.fs (root ++ ["version"]) =
        FS.erase st.fs (root ++ ["version"]) := by
  have hpref : root.isPrefixOf (root ++ ["version"]) = true :=
    isPrefixOf_append root ["version"]
  cases hm : FS.lookup st.fs (root ++ ["version"]) with
  | some f =>
    cases appv with
    | dev =>
      have hsp : specPurge st.fs root .dev = false := by
        simp [specPurge, hm]
      have hinit : cacheInit st root .dev now =
          (.ok (), { st with
            inst := some root,
            fs := FS.insert st.fs (root ++ ["version"]) ⟨.text .dev, now⟩ }) := by
        simp [cacheInit, hinst, hm]
      rw [hsp]
      simp only [Bool.false_eq_true, if_false, hinit]
      exact FS.erase_insert _ _ _
    | sem x y z =>
      cases hp : parseData f.data with
      | ok mv =>
        cases hlt : semLt mv (x, y, z) with
        | true =>
          have hsp : specPurge st.fs root (.sem x y z) = true := by
            simp [specPurge, hm, hp, hlt]
          have hinit : cacheInit st root (.sem x y z) now =
              (.ok (), { st with
                inst := some root,
                fs := FS.insert (FS.rmtree st.fs root) (root ++ ["version"])
                  ⟨.text (.sem x y z), now⟩ }) := by
            simp [cacheInit, hinst, hm, hp, hlt, clear_caches]
          rw [hsp, if_pos rfl, hinit]
          exact ⟨filesUnder_insert_of_empty _ _ _ _ hpref
              (FS.filesUnder_rmtree st.fs root),
            by rw [FS.rmtree_insert_under _ _ _ _ hpref, FS.rmtree_idem]⟩
        | false =>
          have hsp : specPurge st.fs root (.sem x y z) = false := by
            simp [specPurge, hm, hp, hlt]
          have hinit : cacheInit st root (.sem x y z) now =
              (.ok (), { st with
                inst := some root,
                fs := FS.insert st.fs (root ++ ["version"])
                  ⟨.text (.sem x y z), now⟩ }) := by
            simp [cacheInit, hinst, hm, hp, hlt]
          rw [hsp]
          simp only [Bool.false_eq_true, if_false, hinit]
          exact FS.erase_insert _ _ _
      | error e =>
        have hsp : specPurge st.fs root (.sem x y z) = false := by
          simp [specPurge, hm, hp]
        have hinit : cacheInit st root (.sem x y z) now =
            (.error e, { st with inst := some root }) := by
          simp [cacheInit, hinst, hm, hp]
        rw [hsp]
        simp only [Bool.false_eq_true, if_false, hinit]
  | none =>
    cases hd : FS.dirNonEmpty st.fs root with
    | true =>
      have hsp : specPurge st.fs root appv = true := by
        cases appv <;> simp [specPurge, hm, hd]
      have hinit : cacheInit st root appv now =
          (.ok (), { st with
            inst := some root,
            fs := FS.insert (FS.rmtree st.fs root) (root ++ ["version"])
              ⟨.text appv, now⟩ }) := by
        simp [cacheInit, hinst, hm, hd, clear_caches]
      rw [hsp, if_pos rfl, hinit]
      exact ⟨filesUnder_insert_of_empty _ _ _ _ hpref
          (FS.filesUnder_rmtree st.fs root),
        by rw [FS.rmtree_insert_under _ _ _ _ hpref, FS.rmtree_idem]⟩
    | false =>
      have hsp : specPurge st.fs root appv = false := by
        cases appv <;> simp [specPurge, hm, hd]
      have hinit : cacheInit st root appv now =
          (.ok (), { st with
            inst := some root,
            fs := FS.insert st.fs (root ++ ["version"]) ⟨.text appv, now⟩ }) := by
        simp [cacheInit, hinst, hm, hd]
      rw [hsp]
      simp only [Bool.false_eq_true, if_false, hinit]
      exact FS.erase_insert _ _ _

/-- Witness for C4 on a cache directory with an older marker version. -/
theorem C4_version_purge_witness :
    (if specPurge [(["c", "version"], ⟨.text (.sem 1 0 0), 0⟩),
        (["c", "d"], ⟨.pickle (.int 1), 0⟩)] ["c"] (.sem 2 0 0) = true then
      FS.filesUnder (cacheInit ⟨Option.none,
          [(["c", "version"], ⟨.text (.sem 1 0 0), 0⟩),
            (["c", "d"], ⟨.pickle (.int 1), 0⟩)], []⟩ ["c"] (.sem 2 0 0)
          5).2.fs ["c"] = [(["c"] ++ ["version"], ⟨.text (.sem 2 0 0), 5⟩)] ∧
        FS.rmtree (cacheInit ⟨Option.none,
          [(["c", "version"], ⟨.text (.sem 1 0 0), 0⟩),
            (["c", "d"], ⟨.pickle (.int 1), 0⟩)], []⟩ ["c"] (.sem 2 0 0)
          5).2.fs ["c"] =
          FS.rmtree [(["c", "version"], ⟨.text (.sem 1 0 0), 0⟩),
            (["c", "d"], ⟨.pickle (.int 1), 0⟩)] ["c"]
    else
      FS.erase (cacheInit ⟨Option.none,
          [(["c", "version"], ⟨.text (.sem 1 0 0), 0⟩),
            (["c", "d"], ⟨.pickle (.int 1), 0⟩)], []⟩ ["c"] (.sem 2 0 0)
          5).2.fs (["c"] ++ ["version"]) =
        FS.erase [(["c", "version"], ⟨.text (.sem 1 0 0), 0⟩),
          (["c", "d"], ⟨.pickle (.int 1), 0⟩)] (["c"] ++ ["version"])) :=
  C4_version_purge ⟨Option.none,
    [(["c", "version"], ⟨.text (.sem 1 0 0), 0⟩),
      (["c", "d"], ⟨.pickle (.int 1), 0⟩)], []⟩ ["c"] (.sem 2 0 0) 5 rfl

/-- C9: constructing `Cache` with `app_version = "development"` while the
marker file exists deletes nothing regardless of the marker's content: the
resulting filesystem is the old one with only the marker overwritten to
`"development"` — every other file is untouched. -/
theorem C9_development_keeps_cache (st : CacheSt) (root : FPath) (now : Nat)
    (f : File)
    (hinst : st.inst = Option.none)
    (hmarker : FS.lookup st.fs (root ++ ["version"]) = some f) :
    (cacheInit st root .dev now).1 = .ok () ∧
      (cacheInit st root .dev now).2.fs =
        FS.insert st.fs (root ++ ["version"]) ⟨.text .dev, now⟩ ∧
      FS.erase (cacheInit st root .dev now).2.fs (root ++ ["version"]) =
        FS.erase st.fs (root ++ ["version"]) ∧
      FS.lookup (cacheInit st root .dev now).2.fs (root ++ ["version"]) =
        some ⟨.text .dev, now⟩ := by
  have hinit : cacheInit st root .dev now =
      (.ok (), { st with
        inst := some root,
        fs := FS.insert st.fs (root ++ ["version"]) ⟨.text .dev, now⟩ }) := by
    simp [cacheInit, hinst, hmarker]
  rw [hinit]
  exact ⟨rfl, rfl, FS.erase_insert _ _ _, FS.lookup_insert_self _ _ _⟩

/-- Witness for C9 with a marker newer than any release. -/
theorem C9_development_keeps_cache_witness :
    (cacheInit ⟨Option.none, [(["c", "version"], ⟨.text (.sem 9 9 9), 0⟩),
        (["c", "d"], ⟨.pickle (.int 1), 0⟩)], []⟩ ["c"] .dev 5).1 = .ok () ∧
      (cacheInit ⟨Option.none, [(["c", "version"], ⟨.text (.sem 9 9 9), 0⟩),
        (["c", "d"], ⟨.pickle (.int 1), 0⟩)], []⟩ ["c"] .dev 5).2.fs =
        FS.insert [(["c", "version"], ⟨.text (.sem 9 9 9), 0⟩),
          (["c", "d"], ⟨.pickle (.int 1), 0⟩)] (["c"] ++ ["version"])
          ⟨.text .dev, 5⟩ ∧
      FS.erase (cacheInit ⟨Option.none,
        [(["c", "version"], ⟨.text (.sem 9 9 9), 0⟩),
          (["c", "d"], ⟨.pickle (.int 1), 0⟩)], []⟩ ["c"] .dev 5).2.fs
        (["c"] ++ ["version"]) =
        FS.erase [(["c", "version"], ⟨.text (.sem 9 9 9), 0⟩),
          (["c", "d"], ⟨.pickle (.int 1), 0⟩)] (["c"] ++ ["version"]) ∧
      FS.lookup (cacheInit ⟨Option.none,
        [(["c", "version"], ⟨.text (.sem 9 9 9), 0⟩),
          (["c", "d"], ⟨.pickle (.int 1), 0⟩)], []⟩ ["c"] .dev 5).2.fs
        (["c"] ++ ["version"]) = some ⟨.text .dev, 5⟩ :=
  C9_development_keeps_cache ⟨Option.none,
    [(["c", "version"], ⟨.text (.sem 9 9 9), 0⟩),
      (["c", "d"], ⟨.pickle (.int 1), 0⟩)], []⟩ ["c"] 5
    ⟨.text (.sem 9 9 9), 0⟩ rfl (by decide)

end CCL
